import Mathlib

/-!
Verification development for the md2mdocx markdown-to-docx converter
(src/md2mdocx.js).  The markdown parser, inline markup resolver, section
indent tracking, mermaid prerendering/caching, image scaling and changelog
extraction are shallowly embedded below; network and file I/O are abstracted
by explicit oracle parameters, and JavaScript regular expressions are
translated into executable character-list matchers with the same leftmost /
lazy / greedy semantics on the pattern shapes the source uses.
-/

namespace Md2mdocx

/-- JS whitespace: the characters matched by the regex whitespace class and
stripped by String.prototype.trim. -/
def jsWs (c : Char) : Bool :=
  c = ' ' || c = '\t' || c = '\n' || c = '\r' ||
  c.toNat = 11 || c.toNat = 12 || c.toNat = 160 || c.toNat = 5760 ||
  (8192 ≤ c.toNat && c.toNat ≤ 8202) || c.toNat = 8232 || c.toNat = 8233 ||
  c.toNat = 8239 || c.toNat = 8287 || c.toNat = 12288 || c.toNat = 65279

/-- View of a string literal as a character list. -/
def toL (s : String) : List Char := s.data

/-- String.prototype.trim. -/
def trimWs (l : List Char) : List Char :=
  ((l.dropWhile jsWs).reverse.dropWhile jsWs).reverse

/-- The first list is a character-exact prefix of the second. -/
def prefixAt : List Char → List Char → Bool
  | [], _ => true
  | _ :: _, [] => false
  | p :: ps, c :: cs => if p = c then prefixAt ps cs else false

/-- The first list is a prefix of the second up to ASCII case (regex flag i). -/
def prefixAtCI : List Char → List Char → Bool
  | [], _ => true
  | _ :: _, [] => false
  | p :: ps, c :: cs => if p.toLower = c.toLower then prefixAtCI ps cs else false

/-- String.prototype.includes for a single character. -/
def hasChar (c : Char) (l : List Char) : Bool := l.any (fun d => d = c)

/-- String.prototype.includes for a substring. -/
def hasSub (pat : List Char) : List Char → Bool
  | [] => prefixAt pat []
  | c :: cs => if prefixAt pat (c :: cs) then true else hasSub pat cs

/-- String.prototype.split on a one-character separator. -/
def splitCh (sep : Char) : List Char → List (List Char)
  | [] => [[]]
  | c :: cs =>
    let r := splitCh sep cs
    if c = sep then [] :: r
    else
      match r with
      | [] => [[c]]
      | h :: t => (c :: h) :: t

/-- Array.prototype.join with a one-character separator. -/
def joinWith (sep : Char) : List (List Char) → List Char
  | [] => []
  | [l] => l
  | l :: ls => l ++ sep :: joinWith sep ls

/-- Numeric value of a run of decimal digits (parseInt on a digit run). -/
def digitsToNat (ds : List Char) : Nat :=
  ds.foldl (fun n c => n * 10 + (c.toNat - 48)) 0

/-- The double-quote character. -/
def dq : Char := Char.ofNat 34

/-- The single-quote character. -/
def sq : Char := Char.ofNat 39

/-- Member of the regex class holding both quote characters. -/
def isQuote (c : Char) : Bool := c = dq || c = sq

/-- The backtick character (delimiter of inline code spans). -/
def btick : Char := Char.ofNat 96

/-! ## Inline markup resolver (parseInlineMarkup) -/

/-- Style set of one emitted text run; codeShade stands for the grey shading
the source attaches to inline code spans. -/
structure RunStyle where
  bold : Bool := false
  italics : Bool := false
  strike : Bool := false
  codeShade : Bool := false
  deriving DecidableEq, Repr

/-- What an accepted inline match stands for. -/
inductive InlinePayload where
  | txt (content : List Char) (style : RunStyle)
  | lineBreak
  | img (src : List Char) (width height : Option Nat)
  deriving DecidableEq, Repr

/-- An accepted match: start index in the remaining text, total matched
length, and the run it produces. -/
structure MatchInfo where
  index : Nat
  length : Nat
  payload : InlinePayload
  deriving DecidableEq, Repr

/-- Lazy group of the regex shape open(.+?)close: the shortest non-empty run
of non-newline characters followed by close, as the JS lazy quantifier finds
it. -/
def lazyContent (closeD : List Char) : List Char → Option (List Char)
  | [] => none
  | c :: rest =>
    if c = '\n' then none
    else if prefixAt closeD rest then some [c]
    else
      match lazyContent closeD rest with
      | some cs => some (c :: cs)
      | none => none

/-- Leftmost match of a delimiter text pattern open(.+?)close, scanning start
positions left to right as the JS engine does. -/
def matchDelimAux (openD closeD : List Char) (st : RunStyle) :
    List Char → Nat → Option MatchInfo
  | [], _ => none
  | c :: rest, i =>
    if prefixAt openD (c :: rest) then
      match lazyContent closeD ((c :: rest).drop openD.length) with
      | some cs =>
        some ⟨i, openD.length + cs.length + closeD.length, .txt cs st⟩
      | none => matchDelimAux openD closeD st rest (i + 1)
    else matchDelimAux openD closeD st rest (i + 1)

/-- Leftmost match of one inline text pattern. -/
def matchDelim (openD closeD : List Char) (st : RunStyle) (s : List Char) :
    Option MatchInfo :=
  matchDelimAux openD closeD st s 0

/-- The br tag regex anchored at the start: a less-than, the letters b r
(case-insensitive), optional whitespace, an optional slash, a greater-than.
Returns the matched length. -/
def brAt : List Char → Option Nat
  | a :: b :: r :: rest =>
    if a = '<' && b.toLower = 'b' && r.toLower = 'r' then
      let w := rest.takeWhile jsWs
      match rest.dropWhile jsWs with
      | '/' :: '>' :: _ => some (3 + w.length + 2)
      | '>' :: _ => some (3 + w.length + 1)
      | _ => none
    else none
  | _ => none

/-- Leftmost match of the br tag pattern. -/
def matchBrAux : List Char → Nat → Option MatchInfo
  | [], _ => none
  | c :: rest, i =>
    match brAt (c :: rest) with
    | some len => some ⟨i, len, .lineBreak⟩
    | none => matchBrAux rest (i + 1)

/-- Leftmost match of the br tag pattern starting at index 0. -/
def matchBr (s : List Char) : Option MatchInfo := matchBrAux s 0

/-- Attribute regexes width= and height= with an optional quote and a digit
group: first position where the name (case-insensitive) is followed by an
optional quote and at least one digit; returns the parsed number. -/
def attrNumAux (name : List Char) : List Char → Option Nat
  | [] => none
  | c :: cs =>
    if prefixAtCI name (c :: cs) then
      let rest := (c :: cs).drop name.length
      let rest2 :=
        match rest with
        | q :: qs => if isQuote q then qs else rest
        | [] => rest
      let ds := rest2.takeWhile Char.isDigit
      if ds.isEmpty then attrNumAux name cs else some (digitsToNat ds)
    else attrNumAux name cs

/-- Tail of the img regex at one candidate offset: src= (case-insensitive),
a quote, a non-empty quote-free run (the captured src), a quote, a greedy
run without a closing angle bracket, then the bracket.  Returns the length
consumed from the candidate offset and the captured src. -/
def srcTailAt (t : List Char) : Option (Nat × List Char) :=
  if prefixAtCI (toL ("src=")) t then
    match t.drop 4 with
    | q :: t3 =>
      if isQuote q then
        let runv := t3.takeWhile (fun c => !(isQuote c))
        if runv.isEmpty then none
        else
          match t3.drop runv.length with
          | q2 :: t5 =>
            if isQuote q2 then
              let gap := t5.takeWhile (fun c => !(c = '>'))
              match t5.drop gap.length with
              | '>' :: _ => some (4 + 1 + runv.length + 1 + gap.length + 1, runv)
              | _ => none
            else none
          | [] => none
      else none
    | [] => none
  else none

/-- Greedy placement of the gap before src= in the img regex: the class
excluding the closing bracket is greedy, so the latest feasible candidate
offset wins; offsets are tried downward from the given bound. -/
def findSrcFrom (rest : List Char) : Nat → Option (Nat × List Char)
  | 0 => none
  | p + 1 =>
    match srcTailAt (rest.drop (p + 1)) with
    | some (len, src) => some (p + 1 + len, src)
    | none => findSrcFrom rest p

/-- The img tag regex anchored at the start: the tag name (case-insensitive),
mandatory whitespace, a greedy gap without a closing bracket, the src
attribute and a closing bracket.  Returns (total length, captured src). -/
def imgTagAt (s : List Char) : Option (Nat × List Char) :=
  if prefixAtCI (toL ("<img")) s then
    let rest := s.drop 4
    match rest with
    | c :: _ =>
      if jsWs c then
        let region := rest.takeWhile (fun d => !(d = '>'))
        match findSrcFrom rest region.length with
        | some (len, src) => some (4 + len, src)
        | none => none
      else none
    | [] => none
  else none

/-- Leftmost match of the img tag pattern, extracting width and height from
the matched tag text as the source does. -/
def matchImgAux : List Char → Nat → Option MatchInfo
  | [], _ => none
  | c :: rest, i =>
    match imgTagAt (c :: rest) with
    | some (len, src) =>
      let tag := (c :: rest).take len
      some ⟨i, len,
        .img src (attrNumAux (toL ("width=")) tag) (attrNumAux (toL ("height=")) tag)⟩
    | none => matchImgAux rest (i + 1)

/-- Leftmost match of the img tag pattern starting at index 0. -/
def matchImg (s : List Char) : Option MatchInfo := matchImgAux s 0

/-- Style of the triple-emphasis pattern. -/
def styleBoldItalic : RunStyle := { bold := true, italics := true }

/-- Style of the double-emphasis patterns. -/
def styleBold : RunStyle := { bold := true }

/-- Style of the single-emphasis patterns. -/
def styleItalic : RunStyle := { italics := true }

/-- Style of the strikethrough pattern. -/
def styleStrike : RunStyle := { strike := true }

/-- Style of the inline code pattern. -/
def styleCode : RunStyle := { codeShade := true }

/-- The inline text patterns of parseInlineMarkup, in declaration order:
triple-star, double-star, single-star, double-underscore, single-underscore,
double-tilde, backtick. -/
def inlinePatterns : List (List Char × List Char × RunStyle) :=
  [ (['*', '*', '*'], ['*', '*', '*'], styleBoldItalic),
    (['*', '*'], ['*', '*'], styleBold),
    (['*'], ['*'], styleItalic),
    (['_', '_'], ['_', '_'], styleBold),
    (['_'], ['_'], styleItalic),
    (['~', '~'], ['~', '~'], styleStrike),
    ([btick], [btick], styleCode) ]

/-- All matchers checked by one iteration of parseInlineMarkup, in the order
the source checks them: the br tag, the img tag, then the text patterns in
declaration order. -/
def inlineMatchers : List (List Char → Option MatchInfo) :=
  matchBr :: matchImg :: inlinePatterns.map (fun p => matchDelim p.1 p.2.1 p.2.2)

/-- Initial earliest record of one loop iteration: index is the length of the
remaining text, and the payload stands for the final plain-text run. -/
def sentinel (remaining : List Char) : MatchInfo :=
  ⟨remaining.length, 0, .txt remaining {}⟩

/-- One comparison step of the loop: a candidate replaces the current best
only on a strictly smaller start index. -/
def selStep (best : MatchInfo) : Option MatchInfo → MatchInfo
  | some m => if m.index < best.index then m else best
  | none => best

/-- One iteration's selection in parseInlineMarkup: starting from the
sentinel, check every matcher in declaration order, keeping the earliest
match and breaking ties in favour of the earlier-declared matcher. -/
def selectEarliest (remaining : List Char) : MatchInfo :=
  (inlineMatchers.map (fun f => f remaining)).foldl selStep (sentinel remaining)

/-- One resolved inline run: styled text, a forced break, or an inline image
(file loading abstracted; the run records src and size attributes). -/
inductive Run where
  | text (content : List Char) (style : RunStyle)
  | lineBreak
  | image (src : List Char) (width height : Option Nat)
  deriving DecidableEq, Repr

/-- Run produced by an accepted match. -/
def runOf : InlinePayload → Run
  | .txt c st => .text c st
  | .lineBreak => .lineBreak
  | .img s w h => .image s w h

/-- The scanning loop of parseInlineMarkup; the fuel bounds iterations and is
sufficient because every accepted match consumes at least one character. -/
def inlineRunsAux : Nat → List Char → List Run
  | 0, _ => []
  | fuel + 1, remaining =>
    if remaining.isEmpty then []
    else
      let e := selectEarliest remaining
      let pre : List Run :=
        if e.index = 0 then [] else [.text (remaining.take e.index) {}]
      if e.index < remaining.length then
        pre ++ runOf e.payload :: inlineRunsAux fuel (remaining.drop (e.index + e.length))
      else [.text remaining {}]

/-- parseInlineMarkup: resolve one block's raw text into ordered runs; an
empty scan falls back to a single plain run of the whole text. -/
def parseInlineMarkup (text : List Char) : List Run :=
  let rs := inlineRunsAux (text.length + 1) text
  if rs.isEmpty then [.text text {}] else rs

/-! ## Block parser (MarkdownParser) -/

/-- Kind of a list block. -/
inductive ListKind where
  | bullet
  | number
  deriving DecidableEq, Repr

/-- One list item: its raw text and its nesting level. -/
structure LItem where
  text : List Char
  level : Nat
  deriving DecidableEq, Repr

/-- One block element emitted by the parser. -/
inductive Elem where
  | heading (level : Nat) (text : List Char)
  | paragraph (text : List Char)
  | list (kind : ListKind) (items : List LItem)
  | table (rows : List (List (List Char)))
  | code (language content : List Char)
  | blockquote (text : List Char)
  | image (alt src : List Char) (width height : Option Nat)
  | hr
  | pagebreak
  deriving DecidableEq, Repr

/-- The three-backtick fence marker. -/
def fenceMark : List Char := [btick, btick, btick]

/-- Regex tail of the shape whitespace-plus then a non-empty group to the end
of the line, with the greedy/backtracking behaviour of the JS engine: at
least one whitespace character, and the group is the rest after the maximal
whitespace run, or the last whitespace character when nothing follows it. -/
def wsPlusRest (t : List Char) : Option (List Char) :=
  let w := t.takeWhile jsWs
  let r := t.dropWhile jsWs
  if w.isEmpty then none
  else if !r.isEmpty then some r
  else if 2 ≤ w.length then some [(w.getLast?.getD ' ')] else none

/-- The forced-pagebreak tag line (anchored both ends, case-insensitive). -/
def pagebreakLine (l : List Char) : Bool :=
  if prefixAtCI (toL ("<pagebreak")) l then
    match (l.drop 10).dropWhile jsWs with
    | ['/', '>'] => true
    | ['>'] => true
    | _ => false
  else false

/-- The heading regex: one to six hash marks, whitespace, then text; returns
the heading level and text. -/
def headingOf (l : List Char) : Option (Nat × List Char) :=
  let hs := l.takeWhile (fun c => c = '#')
  if 1 ≤ hs.length && hs.length ≤ 6 then
    match wsPlusRest (l.drop hs.length) with
    | some content => some (hs.length, content)
    | none => none
  else none

/-- The markdown image regex anchored to the whole line; returns alt and
src. -/
def mdImageOf (l : List Char) : Option (List Char × List Char) :=
  match l with
  | '!' :: '[' :: rest =>
    let alt := rest.takeWhile (fun c => !(c = ']'))
    match rest.drop alt.length with
    | ']' :: '(' :: rest2 =>
      let src := rest2.takeWhile (fun c => !(c = ')'))
      if src.isEmpty then none
      else
        match rest2.drop src.length with
        | [')'] => some (alt, src)
        | _ => none
    | _ => none
  | _ => none

/-- First match of the img tag regex anywhere in a line; returns the captured
src. -/
def imgTagSearch : List Char → Option (List Char)
  | [] => none
  | c :: cs =>
    match imgTagAt (c :: cs) with
    | some (_, src) => some src
    | none => imgTagSearch cs

/-- The alt attribute regex: alt= (case-insensitive), a quote, a possibly
empty quote-free run, a quote; first match anywhere. -/
def attrAltAux : List Char → Option (List Char)
  | [] => none
  | c :: cs =>
    if prefixAtCI (toL ("alt=")) (c :: cs) then
      match (c :: cs).drop 4 with
      | q :: rest =>
        if isQuote q then
          let v := rest.takeWhile (fun d => !(isQuote d))
          match rest.drop v.length with
          | q2 :: _ => if isQuote q2 then some v else attrAltAux cs
          | [] => attrAltAux cs
        else attrAltAux cs
      | [] => attrAltAux cs
    else attrAltAux cs

/-- Character class of the table separator row. -/
def sepRowChar (c : Char) : Bool := jsWs c || c = '-' || c = ':' || c = '|'

/-- The table separator row regex: an optional pipe, at least one class
character, an optional pipe, anchored both ends; since the pipe is in the
class this is exactly a non-empty line of class characters. -/
def sepRowLine (l : List Char) : Bool := !l.isEmpty && l.all sepRowChar

/-- A bullet list marker character. -/
def isListMarker (c : Char) : Bool := c = '-' || c = '*' || c = '+'

/-- The bullet dispatch regex: any leading whitespace, a marker, then at
least one whitespace character. -/
def bulletDispatch (l : List Char) : Bool :=
  match l.dropWhile jsWs with
  | c :: d :: _ => isListMarker c && jsWs d
  | _ => false

/-- The numbered dispatch regex: any leading whitespace, digits, a dot, then
at least one whitespace character. -/
def numberDispatch (l : List Char) : Bool :=
  let t := l.dropWhile jsWs
  let ds := t.takeWhile Char.isDigit
  if ds.isEmpty then false
  else
    match t.drop ds.length with
    | '.' :: e :: _ => jsWs e
    | _ => false

/-- The horizontal rule regex: three or more rule characters, anchored both
ends. -/
def hrChar (c : Char) : Bool := c = '-' || c = '*' || c = '_'

/-- A horizontal rule line. -/
def hrLine (l : List Char) : Bool := 3 ≤ l.length && l.all hrChar

/-- parseCodeBlock: the language tag after the fence, then all lines until a
closing fence (exclusive), skipping the closing fence. -/
def parseCodeBlock (l : List Char) (rest : List (List Char)) :
    Elem × List (List Char) :=
  let lang := trimWs (l.drop 3)
  let body := rest.takeWhile (fun x => !(prefixAt fenceMark x))
  (.code lang (joinWith '\n' body), (rest.drop body.length).drop 1)

/-- parseTableRow: split on the pipe, trim every cell, and keep a cell when
it is an inner cell or non-empty. -/
def parseTableRow (l : List Char) : List (List Char) :=
  let parts := (splitCh '|' l).map trimWs
  (parts.enum.filter (fun p =>
    (0 < p.1 && p.1 < parts.length - 1) || !p.2.isEmpty)).map (fun p => p.2)

/-- parseTable: the header row, the discarded separator row, then data rows
while the line has a pipe. -/
def parseTable (l : List Char) (rest : List (List Char)) :
    Elem × List (List Char) :=
  let rest2 := rest.drop 1
  let dataLines := rest2.takeWhile (fun x => hasChar '|' x)
  (.table (parseTableRow l :: dataLines.map parseTableRow),
    rest2.drop dataLines.length)

/-- The top-level item pattern of parseList for the given kind (anchored at
column zero); returns the item text. -/
def topItemOf (kind : ListKind) (l : List Char) : Option (List Char) :=
  match kind with
  | .bullet =>
    match l with
    | c :: rest => if isListMarker c then wsPlusRest rest else none
    | [] => none
  | .number =>
    let ds := l.takeWhile Char.isDigit
    if ds.isEmpty then none
    else
      match l.drop ds.length with
      | '.' :: rest => wsPlusRest rest
      | _ => none

/-- The nested bullet pattern of parseList: leading whitespace, a marker,
whitespace, text; returns the indent width and the item text. -/
def nestedItemOf (l : List Char) : Option (Nat × List Char) :=
  let iw := l.takeWhile jsWs
  if iw.isEmpty then none
  else
    match l.drop iw.length with
    | c :: rest =>
      if isListMarker c then
        match wsPlusRest rest with
        | some t => some (iw.length, t)
        | none => none
      else none
    | [] => none

/-- The item loop of parseList: a top-level item at level zero, a nested
bullet at level min((indent+1)/2, 3), a blank line consumed and ending the
block, or any other line ending the block unconsumed. -/
def parseListAux (kind : ListKind) : List (List Char) → List LItem × List (List Char)
  | [] => ([], [])
  | l :: rest =>
    match topItemOf kind l with
    | some t =>
      let r := parseListAux kind rest
      (⟨t, 0⟩ :: r.1, r.2)
    | none =>
      match nestedItemOf l with
      | some (indent, t) =>
        let r := parseListAux kind rest
        (⟨t, min ((indent + 1) / 2) 3⟩ :: r.1, r.2)
      | none =>
        if (trimWs l).isEmpty then ([], rest) else ([], l :: rest)

/-- One line of a blockquote: strip the quote marker and at most one
following whitespace character. -/
def stripQuote (l : List Char) : List Char :=
  match l with
  | '>' :: c :: rest => if jsWs c then rest else c :: rest
  | '>' :: [] => []
  | _ => l

/-- parseBlockquote: contiguous quote lines, stripped and joined with a
newline. -/
def parseBlockquote (lines : List (List Char)) : Elem × List (List Char) :=
  let qs := lines.takeWhile (fun l => prefixAt ['>'] l)
  (.blockquote (joinWith '\n' (qs.map stripQuote)), lines.drop qs.length)

/-- The bullet paragraph-stop regex: a marker then at least one whitespace
character, anchored at column zero. -/
def topBulletStart (l : List Char) : Bool :=
  match l with
  | c :: d :: _ => isListMarker c && jsWs d
  | _ => false

/-- The numbered paragraph-stop regex: digits, a dot, then at least one
whitespace character, anchored at column zero. -/
def topNumberStart (l : List Char) : Bool :=
  let ds := l.takeWhile Char.isDigit
  if ds.isEmpty then false
  else
    match l.drop ds.length with
    | '.' :: e :: _ => jsWs e
    | _ => false

/-- The stop condition of the paragraph accumulation loop, exactly the
conditions the source tests: a blank line, a hash prefix, a fence prefix, a
top-level bullet start, a top-level numbered start, or a quote prefix. -/
def stopLine (l : List Char) : Bool :=
  (trimWs l).isEmpty || prefixAt ['#'] l || prefixAt fenceMark l ||
    topBulletStart l || topNumberStart l || prefixAt ['>'] l

/-- The accumulation loop of parseParagraph. -/
def parseParagraphAux : List (List Char) → List (List Char) × List (List Char)
  | [] => ([], [])
  | l :: rest =>
    if stopLine l then ([], l :: rest)
    else
      let r := parseParagraphAux rest
      (l :: r.1, r.2)

/-- parseParagraph: accumulate until a stop line, join with a single space,
and emit nothing when no line was accumulated. -/
def parseParagraph (lines : List (List Char)) : List Elem × List (List Char) :=
  let r := parseParagraphAux lines
  (if r.1.isEmpty then [] else [.paragraph (joinWith ' ' r.1)], r.2)

/-- One iteration of the main parse loop: the line dispatch in source
precedence order — blank, fenced code, pagebreak, heading, markdown image,
img tag, table (pipe in the line and a separator next line), bullet list,
numbered list, blockquote, horizontal rule, else paragraph. -/
def parseStep : List (List Char) → List Elem × List (List Char)
  | [] => ([], [])
  | l :: rest =>
    if (trimWs l).isEmpty then ([], rest)
    else if prefixAt fenceMark l then
      let r := parseCodeBlock l rest
      ([r.1], r.2)
    else if pagebreakLine l then ([.pagebreak], rest)
    else
      match headingOf l with
      | some ht => ([.heading ht.1 ht.2], rest)
      | none =>
        match mdImageOf l with
        | some p => ([.image p.1 p.2 none none], rest)
        | none =>
          match imgTagSearch l with
          | some src =>
            ([.image ((attrAltAux l).getD []) src
                (attrNumAux (toL ("width=")) l) (attrNumAux (toL ("height=")) l)], rest)
          | none =>
            if hasChar '|' l &&
                (match rest with | nxt :: _ => sepRowLine nxt | [] => false) then
              let r := parseTable l rest
              ([r.1], r.2)
            else if bulletDispatch l then
              let r := parseListAux .bullet (l :: rest)
              ([.list .bullet r.1], r.2)
            else if numberDispatch l then
              let r := parseListAux .number (l :: rest)
              ([.list .number r.1], r.2)
            else if prefixAt ['>'] l then
              let r := parseBlockquote (l :: rest)
              ([r.1], r.2)
            else if hrLine l then ([.hr], rest)
            else parseParagraph (l :: rest)

/-- The main parse loop with fuel: the source loop has no own bound, so the
fuel counts loop iterations; a run that needs more iterations than fuel
yields none.  An input on which every fuel yields none is an input on which
the source loops forever. -/
def parseFuel : Nat → List (List Char) → Option (List Elem)
  | _, [] => some []
  | 0, _ :: _ => none
  | fuel + 1, l :: rest =>
    let r := parseStep (l :: rest)
    (parseFuel fuel r.2).map (fun tail => r.1 ++ tail)

/-- Parse a whole document: split on newlines, then run the loop. -/
def parseDoc (fuel : Nat) (s : String) : Option (List Elem) :=
  parseFuel fuel (splitCh '\n' (toL s))

/-! ## Changelog extractor (extractChangelog, createHistorySection) -/

/-- The opening changelog marker at the start of the text: the comment
opener, optional whitespace, the region name, optional whitespace, the
comment closer; returns the matched length. -/
def markerOpenAt (s : List Char) : Option Nat :=
  if prefixAt (toL ("<!--")) s then
    let t1 := s.drop 4
    let w1 := t1.takeWhile jsWs
    let t2 := t1.dropWhile jsWs
    if prefixAt (toL ("CHANGELOG")) t2 then
      let t3 := t2.drop 9
      let w2 := t3.takeWhile jsWs
      let t4 := t3.dropWhile jsWs
      if prefixAt (toL ("-->")) t4 then some (4 + w1.length + 9 + w2.length + 3)
      else none
    else none
  else none

/-- The closing changelog marker at the start of the text. -/
def markerCloseAt (s : List Char) : Option Nat :=
  if prefixAt (toL ("<!--")) s then
    let t1 := s.drop 4
    let w1 := t1.takeWhile jsWs
    let t2 := t1.dropWhile jsWs
    if prefixAt (toL ("/CHANGELOG")) t2 then
      let t3 := t2.drop 10
      let w2 := t3.takeWhile jsWs
      let t4 := t3.dropWhile jsWs
      if prefixAt (toL ("-->")) t4 then some (4 + w1.length + 10 + w2.length + 3)
      else none
    else none
  else none

/-- Index of the first closing changelog marker (the lazy region group stops
at the earliest close). -/
def findClose : List Char → Option Nat
  | [] => none
  | c :: cs =>
    if (markerCloseAt (c :: cs)).isSome then some 0
    else (findClose cs).map (fun j => j + 1)

/-- The delimited changelog region: the earliest opening marker followed by
some closing marker, with the lazily matched region between them. -/
def findRegion : List Char → Option (List Char)
  | [] => none
  | c :: cs =>
    match markerOpenAt (c :: cs) with
    | some olen =>
      let after := (c :: cs).drop olen
      match findClose after with
      | some j => some (after.take j)
      | none => findRegion cs
    | none => findRegion cs

/-- One changelog record. -/
structure CRecord where
  version : List Char
  date : List Char
  description : List Char
  deriving DecidableEq, Repr

/-- The changelog separator-row regex: a pipe, at least one class character,
a pipe, anchored both ends (unlike the table separator, the outer pipes are
mandatory here). -/
def clSepLine (t : List Char) : Bool :=
  match t with
  | '|' :: rest =>
    match rest.getLast? with
    | some '|' => !rest.dropLast.isEmpty && rest.dropLast.all sepRowChar
    | _ => false
  | _ => false

/-- The header label tested on the first row of the changelog region. -/
def verLabel : List Char := toL ("バージョン")

/-- The row loop of extractChangelog: skip separator rows, skip the first
row when it carries the header label, parse every other pipe row into a
three-field record when it has at least three cells, discard it otherwise. -/
def changelogRowsAux : Nat → List (List Char) → List CRecord
  | _, [] => []
  | i, l :: rest =>
    let t := trimWs l
    if clSepLine t then changelogRowsAux (i + 1) rest
    else if i = 0 && hasSub verLabel t then changelogRowsAux (i + 1) rest
    else if hasChar '|' t then
      match parseTableRow t with
      | c0 :: c1 :: c2 :: _ => ⟨c0, c1, c2⟩ :: changelogRowsAux (i + 1) rest
      | _ => changelogRowsAux (i + 1) rest
    else changelogRowsAux (i + 1) rest

/-- extractChangelog: locate the delimited region, trim it, keep non-blank
lines, run the row loop, and return no record set when no data row was
found. -/
def extractChangelog (text : List Char) : Option (List CRecord) :=
  match findRegion text with
  | none => none
  | some region =>
    let content := trimWs region
    let lines := (splitCh '\n' content).filter (fun l => !(trimWs l).isEmpty)
    let rows := changelogRowsAux 0 lines
    if rows.isEmpty then none else some rows

/-- The description of the synthesized one-row fallback history. -/
def initialDesc : List Char := toL ("初版作成")

/-- History data of createHistorySection: the extracted records, or the
synthesized one-row history from the resolved options. -/
def historyData (changelog : Option (List CRecord)) (ver date : List Char) :
    List CRecord :=
  match changelog with
  | some rows => rows
  | none => [⟨ver, date, initialDesc⟩]

/-! ## Diagram rendering (renderMermaidToPng, prerenderMermaidDiagrams) -/

/-- Outcome of one request to the rendering service, abstracting the
network: a response with its status and body, a connection error, or a
timeout. -/
inductive KrokiOutcome where
  | success (status : Nat) (body : List Nat)
  | connError
  | timeout
  deriving DecidableEq, Repr

/-- Opening brace character. -/
def lbrace : Char := Char.ofNat 123

/-- Closing brace character. -/
def rbrace : Char := Char.ofNat 125

/-- The init-directive marker whose presence suppresses theme injection. -/
def initMarker : List Char := toL ("%%") ++ [lbrace] ++ toL ("init:")

/-- The injected theme directive line. -/
def initDirective (theme : List Char) : List Char :=
  toL ("%%") ++ [lbrace] ++ toL ("init: ") ++ [lbrace] ++ [sq] ++ toL ("theme") ++
    [sq] ++ toL (": ") ++ [sq] ++ theme ++ [sq] ++ [rbrace, rbrace] ++
    toL ("%%") ++ ['\n']

/-- The body sent to the rendering service: the diagram source, prefixed
with a theme directive when it does not already contain one. -/
def krokiPostData (src theme : List Char) : List Char :=
  if hasSub initMarker src then src else initDirective theme ++ src

/-- renderMermaidToPng: build the request body, perform the request through
the network oracle, and resolve to the body bytes on status 200 and to the
failure marker on any other status, a connection error, or a timeout; the
promise never rejects, which the total return type mirrors. -/
def renderMermaidToPng (network : List Char → KrokiOutcome)
    (src theme : List Char) : Option (List Nat) :=
  match network (krokiPostData src theme) with
  | .success status body => if status = 200 then some body else none
  | .connError => none
  | .timeout => none

/-- The language tag marking diagram code blocks. -/
def mermaidLang : List Char := toL ("mermaid")

/-- Sources of the diagram code blocks of an element sequence, in document
order. -/
def mermaidSources (els : List Elem) : List (List Char) :=
  els.filterMap (fun el =>
    match el with
    | .code lang content => if lang = mermaidLang then some content else none
    | _ => none)

/-- The rendered-diagram cache: insertion-ordered entries from the original
source text to the rendered bytes or the failure marker. -/
abbrev RenderMap := List (List Char × Option (List Nat))

/-- Map lookup (first matching key). -/
def lookupAssoc (m : RenderMap) (k : List Char) : Option (Option (List Nat)) :=
  match m with
  | [] => none
  | e :: rest => if e.1 = k then some e.2 else lookupAssoc rest k

/-- Map.has. -/
def hasKeyA (m : RenderMap) (k : List Char) : Bool := (lookupAssoc m k).isSome

/-- The prerender loop: walk the diagram sources in document order and, for
every source not yet in the cache, perform one render and record the result
(success bytes or failure marker) under the original source text; the log
lists one entry per performed render. -/
def prerenderAux (render : List Char → Option (List Nat)) :
    List (List Char) → RenderMap → List (List Char) → RenderMap × List (List Char)
  | [], m, log => (m, log)
  | s :: rest, m, log =>
    if hasKeyA m s then prerenderAux render rest m log
    else prerenderAux render rest (m ++ [(s, render s)]) (log ++ [s])

/-- prerenderMermaidDiagrams: render every distinct diagram source once,
returning the cache and the request log. -/
def prerenderMermaidDiagrams (network : List Char → KrokiOutcome)
    (els : List Elem) (theme : List Char) : RenderMap × List (List Char) :=
  prerenderAux (fun src => renderMermaidToPng network src theme)
    (mermaidSources els) [] []

/-! ## Document assembly (convertElements) -/

/-- Big-endian 32-bit read from a byte list. -/
def readUInt32BE (bytes : List Nat) (off : Nat) : Nat :=
  bytes.getD off 0 * 16777216 + bytes.getD (off + 1) 0 * 65536 +
    bytes.getD (off + 2) 0 * 256 + bytes.getD (off + 3) 0

/-- getPngDimensions: the signature check and the IHDR width and height. -/
def getPngDimensions (png : List Nat) : Option (Nat × Nat) :=
  if png.length < 24 then none
  else if png.getD 0 0 = 137 && png.getD 1 0 = 80 && png.getD 2 0 = 78 &&
      png.getD 3 0 = 71 then
    some (readUInt32BE png 16, readUInt32BE png 20)
  else none

/-- The fixed page content width in twips (page width minus both margins). -/
def CONTENT_WIDTH : Nat := 11906 - 1440 * 2

/-- Math.round on a rational: floor of the value plus one half. -/
def jsRound (x : ℚ) : Int := Int.floor (x + 1 / 2)

/-- The diagram scaling step of the assembler: when the raster exceeds the
usable width (content width minus the current indent, twips converted to
pixels at 96 dpi) or the fixed maximum height, both dimensions are scaled by
the smaller of the two ratios and rounded; otherwise they pass through. -/
def scaleMermaid (indent w h : Nat) : Nat × Nat :=
  let maxW : ℚ := ((CONTENT_WIDTH : ℚ) - (indent : ℚ)) / 1440 * 96
  let maxH : ℚ := 600
  if (w : ℚ) > maxW ∨ (h : ℚ) > maxH then
    let scale : ℚ := min (maxW / (w : ℚ)) (maxH / (h : ℚ))
    ((jsRound ((w : ℚ) * scale)).toNat, (jsRound ((h : ℚ) * scale)).toNat)
  else (w, h)

/-- Math.round of three quarters of a number. -/
def round075 (n : Nat) : Nat := (3 * n + 2) / 4

/-- JS truthiness of an optional number (null and zero are falsy). -/
def truthyOpt (v : Option Nat) : Option Nat :=
  match v with
  | some n => if n = 0 then none else some n
  | none => none

/-- JS disjunction with a default for an optional number. -/
def orDefault (v : Option Nat) (d : Nat) : Nat :=
  match truthyOpt v with
  | some n => n
  | none => d

/-- The bullet glyph of a top-level bullet item. -/
def bulletChar0 : Char := '・'

/-- One layout primitive pushed by convertElements; run fonts and sizes are
fixed constants in the source and are not recorded, the numbering reference
string is recorded as its two numeric components, and file and image bytes
come from explicit oracles. -/
inductive Prim where
  | headingP (styleLevel indentL : Nat) (text : List Char)
  | paraP (indentL : Nat) (runs : List Run)
  | numItemP (refCount refIndent : Nat) (runs : List Run)
  | bulletItemP (indentL hanging : Nat) (bullet : Char) (runs : List Run)
  | codeLineP (indentL : Nat) (text : List Char)
  | mermaidImgP (indentL width height : Nat)
  | mermaidWarnP (indentL : Nat)
  | tableP (indentL colWidth : Nat) (cells : List (List (List Run)))
  | quoteP (indentL : Nat) (text : List Char)
  | imageP (indentL width height : Nat) (src : List Char)
  | imageMissingP (indentL : Nat) (src : List Char)
  | hrP (indentL : Nat)
  | pageBreakP
  deriving DecidableEq, Repr

/-- The assembly loop of convertElements, threading the numbered-list
counter and the current section indent through the element switch exactly as
the source mutates them: the heading case overwrites the indent (level one
to zero, anything else to one nesting unit of 360) and every other case
reads it. -/
def convertAux (fsread : List Char → Option (List Nat)) (m : RenderMap) :
    Nat → Nat → List Elem → List Prim
  | _, _, [] => []
  | nref, ind, el :: rest =>
    match el with
    | .heading lvl text =>
      let newInd := if lvl = 1 then 0 else 360
      let hlvl := if lvl ≤ 3 then lvl else 3
      .headingP hlvl newInd text :: convertAux fsread m nref newInd rest
    | .paragraph t =>
      .paraP ind (parseInlineMarkup t) :: convertAux fsread m nref ind rest
    | .list kind items =>
      let nref2 := if kind = .number then nref + 1 else nref
      (items.map (fun it =>
        if kind = .number && it.level = 0 then
          Prim.numItemP nref2 ind (parseInlineMarkup it.text)
        else
          Prim.bulletItemP (ind + 720 + it.level * 360) 360
            (if kind = .bullet then (if it.level = 0 then bulletChar0 else '-') else '-')
            (parseInlineMarkup it.text))) ++ convertAux fsread m nref2 ind rest
    | .code lang content =>
      if lang = mermaidLang then
        match (lookupAssoc m content).bind id with
        | some data =>
          let dims := getPngDimensions data
          let w0 := match dims with | some d => d.1 | none => 600
          let h0 := match dims with | some d => d.2 | none => 360
          let wh := scaleMermaid ind w0 h0
          .mermaidImgP ind wh.1 wh.2 :: convertAux fsread m nref ind rest
        | none => .mermaidWarnP ind :: convertAux fsread m nref ind rest
      else
        ((splitCh '\n' content).map (fun cl =>
          Prim.codeLineP (ind + 360) (if cl.isEmpty then [' '] else cl))) ++
          convertAux fsread m nref ind rest
    | .table rows =>
      let colCount :=
        match rows with
        | [] => 1
        | r :: _ => if r.length = 0 then 1 else r.length
      let colWidth := (CONTENT_WIDTH - ind) / colCount
      .tableP ind colWidth (rows.map (fun row => row.map parseInlineMarkup)) ::
        convertAux fsread m nref ind rest
    | .blockquote t =>
      .quoteP (ind + 720) t :: convertAux fsread m nref ind rest
    | .image _ src w h =>
      (match fsread src with
       | some _ =>
         Prim.imageP ind (orDefault w 400)
           (orDefault h (match truthyOpt w with
             | some wn => round075 wn
             | none => 300)) src
       | none => Prim.imageMissingP ind src) :: convertAux fsread m nref ind rest
    | .hr => .hrP ind :: convertAux fsread m nref ind rest
    | .pagebreak => .pageBreakP :: convertAux fsread m nref ind rest

/-- convertElements: assemble the element sequence with both state cells
starting at zero. -/
def convertElements (fsread : List Char → Option (List Nat)) (m : RenderMap)
    (els : List Elem) : List Prim :=
  convertAux fsread m 0 0 els

/-! ## Specification-side characterization of the assembly state -/

/-- The indent update rule as the specification states it: a level-1 heading
resets the structural indent to zero, any other heading sets it to the fixed
nesting unit, and no other element type changes it. -/
def indentStep (ind : Nat) : Elem → Nat
  | .heading lvl _ => if lvl = 1 then 0 else 360
  | _ => ind

/-- The numbered-list counter rule: each numbered list increments it, and no
other element type changes it. -/
def numStep (n : Nat) : Elem → Nat
  | .list .number _ => n + 1
  | _ => n

/-- Emission of one element given the state values active at its position
(for a heading, the value it has just set). -/
def emitEl (fsread : List Char → Option (List Nat)) (m : RenderMap)
    (nref ind : Nat) : Elem → List Prim
  | .heading lvl text =>
    [.headingP (if lvl ≤ 3 then lvl else 3) ind text]
  | .paragraph t => [.paraP ind (parseInlineMarkup t)]
  | .list kind items =>
    items.map (fun it =>
      if kind = .number && it.level = 0 then
        Prim.numItemP nref ind (parseInlineMarkup it.text)
      else
        Prim.bulletItemP (ind + 720 + it.level * 360) 360
          (if kind = .bullet then (if it.level = 0 then bulletChar0 else '-') else '-')
          (parseInlineMarkup it.text))
  | .code lang content =>
    if lang = mermaidLang then
      match (lookupAssoc m content).bind id with
      | some data =>
        let dims := getPngDimensions data
        let w0 := match dims with | some d => d.1 | none => 600
        let h0 := match dims with | some d => d.2 | none => 360
        let wh := scaleMermaid ind w0 h0
        [.mermaidImgP ind wh.1 wh.2]
      | none => [.mermaidWarnP ind]
    else
      (splitCh '\n' content).map (fun cl =>
        Prim.codeLineP (ind + 360) (if cl.isEmpty then [' '] else cl))
  | .table rows =>
    let colCount :=
      match rows with
      | [] => 1
      | r :: _ => if r.length = 0 then 1 else r.length
    [.tableP ind ((CONTENT_WIDTH - ind) / colCount)
      (rows.map (fun row => row.map parseInlineMarkup))]
  | .blockquote t => [.quoteP (ind + 720) t]
  | .image _ src w h =>
    [match fsread src with
     | some _ =>
       Prim.imageP ind (orDefault w 400)
         (orDefault h (match truthyOpt w with
           | some wn => round075 wn
           | none => 300)) src
     | none => Prim.imageMissingP ind src]
  | .hr => [.hrP ind]
  | .pagebreak => [.pageBreakP]

/-- The assembly pass as the specification describes it: every element is
emitted with the state values given by folding the two update rules over the
sequence up to and including itself. -/
def specConvert (fsread : List Char → Option (List Nat)) (m : RenderMap) :
    Nat → Nat → List Elem → List Prim
  | _, _, [] => []
  | nref, ind, el :: rest =>
    emitEl fsread m (numStep nref el) (indentStep ind el) el ++
      specConvert fsread m (numStep nref el) (indentStep ind el) rest

/-! ## Further specification-side definitions used by the theorems -/

/-- A bullet line with the given leading-whitespace width. -/
def mkNested (w : Nat) (t : List Char) : List Char :=
  List.replicate w ' ' ++ '-' :: ' ' :: t

/-- The list line on which the main loop stalls: an indented numbered item. -/
def loopLine : List Char := toL ("  1. x")

/-- Whether an element is a table. -/
def isTableE : Elem → Bool
  | .table _ => true
  | _ => false

/-- The exact condition under which the dispatch takes the table branch: the
line contains a pipe, the next line is a separator row, and no
earlier-precedence branch (blank, fence, pagebreak, heading, markdown image,
img tag) claimed the line. -/
def tableDispatch (l : List Char) (rest : List (List Char)) : Bool :=
  !(trimWs l).isEmpty && !prefixAt fenceMark l && !pagebreakLine l &&
    (headingOf l).isNone && (mdImageOf l).isNone && (imgTagSearch l).isNone &&
    hasChar '|' l &&
    (match rest with | nxt :: _ => sepRowLine nxt | [] => false)

/-- The per-row rule of the changelog extractor as the specification states
it: a separator-shaped row yields nothing, the row at index zero carrying
the header label yields nothing, any other pipe row with at least three
cells yields the record of its first three cells, and everything else
yields nothing. -/
def rowSpec (i : Nat) (l : List Char) : Option CRecord :=
  let t := trimWs l
  if clSepLine t then none
  else if i = 0 && hasSub verLabel t then none
  else if hasChar '|' t then
    match parseTableRow t with
    | c0 :: c1 :: c2 :: _ => some ⟨c0, c1, c2⟩
    | _ => none
  else none

/-- A changelog region with a header row, a separator row and two data
rows. -/
def clSampleTwo : List Char :=
  toL ("intro\n<!-- CHANGELOG -->\n| バージョン | 変更日付 | 変更事由 |\n|---|---|---|\n| 1.0.0 | 2024-01-01 | first |\n| 1.1.0 | 2024-02-01 | second |\n<!-- /CHANGELOG -->\nrest")

/-- A changelog region with only a header row and a separator row. -/
def clSampleHeaderSep : List Char :=
  toL ("<!-- CHANGELOG -->\n| バージョン | 変更日付 | 変更事由 |\n|---|---|---|\n<!-- /CHANGELOG -->")

/-! ## Helper lemmas -/

theorem dropWhile_of_takeWhile_nil {p : Char → Bool} {l : List Char}
    (h : l.takeWhile p = []) : l.dropWhile p = l := by
  cases l with
  | nil => rfl
  | cons a t =>
    by_cases hp : p a
    · simp [List.takeWhile_cons, hp] at h
    · simp [List.dropWhile_cons, hp]

theorem replicate_space_take (w : Nat) (c : Char) (t : List Char)
    (hc : jsWs c = false) :
    (List.replicate w ' ' ++ c :: t).takeWhile jsWs = List.replicate w ' ' ∧
    (List.replicate w ' ' ++ c :: t).dropWhile jsWs = c :: t := by
  induction w with
  | zero => simp [List.takeWhile_cons, List.dropWhile_cons, hc]
  | succ n ih =>
    have hsp : jsWs ' ' = true := by decide
    simp [List.replicate_succ, List.takeWhile_cons, List.dropWhile_cons, hsp, ih]

theorem wsPlusRest_space (t : List Char) (h1 : t ≠ [])
    (h2 : t.takeWhile jsWs = []) : wsPlusRest (' ' :: t) = some t := by
  have hsp : jsWs ' ' = true := by decide
  have hd : (' ' :: t).dropWhile jsWs = t := by
    simp [List.dropWhile_cons, hsp, dropWhile_of_takeWhile_nil h2]
  have ht : (' ' :: t).takeWhile jsWs = [' '] := by
    simp [List.takeWhile_cons, hsp, h2]
  simp [wsPlusRest, hd, ht, h1]

/-! ## Claims -/

/-- C2: for every bullet list line whose leading whitespace has width w, the
parser assigns the item the nesting level min((w+1)/2, 3); in particular a
line with no leading whitespace gets level 0 (the formula also yields 0 at
w = 0). -/
theorem c2_list_nesting_level (w : Nat) (t : List Char)
    (h1 : t ≠ []) (h2 : t.takeWhile jsWs = []) :
    parseListAux .bullet [mkNested w t] = ([⟨t, min ((w + 1) / 2) 3⟩], []) := by
  have hws := wsPlusRest_space t h1 h2
  cases w with
  | zero =>
    simp [mkNested, parseListAux, topItemOf, isListMarker, hws]
  | succ n =>
    have htake : (mkNested (n + 1) t).takeWhile jsWs = List.replicate (n + 1) ' ' := by
      exact (replicate_space_take (n + 1) '-' (' ' :: t) (by decide)).1
    have hdrop : (mkNested (n + 1) t).drop (n + 1) = '-' :: ' ' :: t := by
      have h := List.drop_left (List.replicate (n + 1) ' ') ('-' :: ' ' :: t)
      rw [List.length_replicate] at h
      exact h
    have htop : topItemOf .bullet (mkNested (n + 1) t) = none := by
      have hh : mkNested (n + 1) t =
          ' ' :: (List.replicate n ' ' ++ '-' :: ' ' :: t) := by
        simp [mkNested, List.replicate_succ]
      rw [hh]
      simp [topItemOf, isListMarker]
    have hnest : nestedItemOf (mkNested (n + 1) t) = some (n + 1, t) := by
      unfold nestedItemOf
      rw [htake]
      simp [List.replicate_succ, hdrop, hws, isListMarker]
    simp [parseListAux, htop, hnest]

/-- C2 witness: the boundary widths 0, 1, 2, 3, 4, 5, 6, 8 yield the levels
0, 1, 1, 2, 2, 3, 3, 3. -/
theorem c2_list_nesting_level_witness :
    parseListAux .bullet [mkNested 0 (toL ("a"))] = ([⟨toL ("a"), 0⟩], []) ∧
    parseListAux .bullet [mkNested 1 (toL ("a"))] = ([⟨toL ("a"), 1⟩], []) ∧
    parseListAux .bullet [mkNested 2 (toL ("a"))] = ([⟨toL ("a"), 1⟩], []) ∧
    parseListAux .bullet [mkNested 3 (toL ("a"))] = ([⟨toL ("a"), 2⟩], []) ∧
    parseListAux .bullet [mkNested 4 (toL ("a"))] = ([⟨toL ("a"), 2⟩], []) ∧
    parseListAux .bullet [mkNested 5 (toL ("a"))] = ([⟨toL ("a"), 3⟩], []) ∧
    parseListAux .bullet [mkNested 6 (toL ("a"))] = ([⟨toL ("a"), 3⟩], []) ∧
    parseListAux .bullet [mkNested 8 (toL ("a"))] = ([⟨toL ("a"), 3⟩], []) :=
  ⟨(c2_list_nesting_level 0 (toL ("a")) (by decide) (by decide)).trans (by decide),
   (c2_list_nesting_level 1 (toL ("a")) (by decide) (by decide)).trans (by decide),
   (c2_list_nesting_level 2 (toL ("a")) (by decide) (by decide)).trans (by decide),
   (c2_list_nesting_level 3 (toL ("a")) (by decide) (by decide)).trans (by decide),
   (c2_list_nesting_level 4 (toL ("a")) (by decide) (by decide)).trans (by decide),
   (c2_list_nesting_level 5 (toL ("a")) (by decide) (by decide)).trans (by decide),
   (c2_list_nesting_level 6 (toL ("a")) (by decide) (by decide)).trans (by decide),
   (c2_list_nesting_level 8 (toL ("a")) (by decide) (by decide)).trans (by decide)⟩

/-- C10: the main parse loop does not terminate on every input.  On a
document whose list block opens with an indented numbered item, the
numbered dispatch matches but parseList consumes no line (its top pattern is
anchored at column zero and its nested pattern requires a bullet marker), so
the loop re-dispatches the same line forever: the fuel-indexed parse yields
none for every fuel, and one parse step returns the line list unchanged. -/
theorem c10_parse_nontermination :
    (∀ fuel, parseDoc fuel ("  1. x") = none) ∧
    parseStep [loopLine] = ([Elem.list .number []], [loopLine]) := by
  have hstep : parseStep [loopLine] = ([Elem.list .number []], [loopLine]) := by
    decide
  refine ⟨?_, hstep⟩
  have hsplit : splitCh '\n' (toL ("  1. x")) = [loopLine] := by decide
  have key : ∀ fuel, parseFuel fuel [loopLine] = none := by
    intro fuel
    induction fuel with
    | zero => rfl
    | succ n ih => simp [parseFuel, hstep, ih]
  intro fuel
  simp [parseDoc, hsplit, key]

/-- C3 counterexample: a pipe-containing line with no following separator
row is not always parsed as part of a paragraph — a single line that is a
bullet item containing a pipe is parsed as a list. -/
theorem c3_pipe_line_counterexample :
    parseDoc 3 ("- a|b") = some [Elem.list .bullet [⟨toL ("a|b"), 0⟩]] ∧
    hasChar '|' (toL ("- a|b")) = true ∧
    splitCh '\n' (toL ("- a|b")) = [toL ("- a|b")] := by decide

/-- C8 counterexample: a horizontal-rule line does not stop paragraph
accumulation — it is absorbed into the paragraph text. -/
theorem c8_paragraph_counterexample :
    parseDoc 4 ("hello\n---") = some [Elem.paragraph (toL ("hello ---"))] ∧
    hrLine (toL ("---")) = true := by decide

/-- C4: the assembly pass equals its specification-side characterization:
the structural indent is mutated only by heading elements (level one sets it
to zero, any other level to the fixed unit 360), the numbered-list counter
only by numbered lists, and every element is emitted with the state values
active at its position in the sequence. -/
theorem c4_indent_state (fsread : List Char → Option (List Nat)) (m : RenderMap)
    (nref ind : Nat) (els : List Elem) :
    convertAux fsread m nref ind els = specConvert fsread m nref ind els := by
  induction els generalizing nref ind with
  | nil => rfl
  | cons el rest ih =>
    cases el with
    | heading lvl text =>
      simp [convertAux, specConvert, emitEl, indentStep, numStep, ih]
    | paragraph t =>
      simp [convertAux, specConvert, emitEl, indentStep, numStep, ih]
    | list kind items =>
      cases kind <;> simp [convertAux, specConvert, emitEl, indentStep, numStep, ih]
    | table rows =>
      simp [convertAux, specConvert, emitEl, indentStep, numStep, ih]
    | code lang content =>
      simp only [convertAux, specConvert, emitEl, indentStep, numStep]
      split_ifs with hl
      · cases h : (lookupAssoc m content).bind id <;> simp [h, ih]
      · simp [ih]
    | blockquote t =>
      simp [convertAux, specConvert, emitEl, indentStep, numStep, ih]
    | image alt src wi hi =>
      cases h : fsread src <;>
        simp [convertAux, specConvert, emitEl, indentStep, numStep, h, ih]
    | hr => simp [convertAux, specConvert, emitEl, indentStep, numStep, ih]
    | pagebreak => simp [convertAux, specConvert, emitEl, indentStep, numStep, ih]

theorem selStep_index_le (b : MatchInfo) (r : Option MatchInfo) :
    (selStep b r).index ≤ b.index := by
  cases r with
  | none => exact le_refl _
  | some m =>
    simp only [selStep]
    split <;> omega

theorem selFold_index_le (rs : List (Option MatchInfo)) (b : MatchInfo) :
    (rs.foldl selStep b).index ≤ b.index := by
  induction rs generalizing b with
  | nil => exact le_refl _
  | cons r rest ih =>
    simp only [List.foldl_cons]
    exact le_trans (ih (selStep b r)) (selStep_index_le b r)

theorem selFold_le_match (rs : List (Option MatchInfo)) (b : MatchInfo) :
    ∀ j m, rs.get? j = some (some m) → (rs.foldl selStep b).index ≤ m.index := by
  induction rs generalizing b with
  | nil => intro j m h; simp at h
  | cons r rest ih =>
    intro j m h
    cases j with
    | zero =>
      simp only [List.get?_cons_zero, Option.some.injEq] at h
      subst h
      simp only [List.foldl_cons]
      refine le_trans (selFold_index_le _ _) ?_
      simp only [selStep]
      split <;> omega
    | succ j2 =>
      simp only [List.get?_cons_succ] at h
      simp only [List.foldl_cons]
      exact ih (selStep b r) j2 m h

theorem selFold_result (rs : List (Option MatchInfo)) (b : MatchInfo) :
    rs.foldl selStep b = b ∨
    ∃ j m, rs.get? j = some (some m) ∧ rs.foldl selStep b = m ∧
      m.index < b.index ∧
      ∀ i m2, i < j → rs.get? i = some (some m2) → m.index < m2.index := by
  induction rs generalizing b with
  | nil => exact Or.inl rfl
  | cons r rest ih =>
    simp only [List.foldl_cons]
    by_cases hr : ∃ m0, r = some m0 ∧ m0.index < b.index
    · obtain ⟨m0, rfl, hlt⟩ := hr
      have hstep : selStep b (some m0) = m0 := by simp [selStep, hlt]
      rw [hstep]
      rcases ih m0 with heq | ⟨j, m, hj, heqm, hmlt, hmin⟩
      · right
        refine ⟨0, m0, by simp, heq, hlt, ?_⟩
        intro i m2 hi
        omega
      · right
        refine ⟨j + 1, m, by simpa using hj, heqm, lt_trans hmlt hlt, ?_⟩
        intro i m2 hi hget
        cases i with
        | zero =>
          simp only [List.get?_cons_zero, Option.some.injEq, Option.some.injEq] at hget
          rw [← hget]
          exact hmlt
        | succ i2 =>
          simp only [List.get?_cons_succ] at hget
          exact hmin i2 m2 (by omega) hget
    · have hstep : selStep b r = b := by
        cases r with
        | none => rfl
        | some m0 =>
          have hnot : ¬ m0.index < b.index := fun hc => hr ⟨m0, rfl, hc⟩
          simp [selStep, hnot]
      rw [hstep]
      rcases ih b with heq | ⟨j, m, hj, heqm, hmlt, hmin⟩
      · exact Or.inl heq
      · right
        refine ⟨j + 1, m, by simpa using hj, heqm, hmlt, ?_⟩
        intro i m2 hi hget
        cases i with
        | zero =>
          simp only [List.get?_cons_zero, Option.some.injEq] at hget
          have hnot : ¬ m2.index < b.index := fun hc => hr ⟨m2, hget, hc⟩
          omega
        | succ i2 =>
          simp only [List.get?_cons_succ] at hget
          exact hmin i2 m2 (by omega) hget

/-- C1: in every iteration of the inline resolver, the selected match is the
earliest-starting one among the matchers (br tag, img tag, then the text
patterns bold-italic, bold, italic, bold-alt, italic-alt, strikethrough,
code, in declaration order): the selected index is a lower bound on every
matcher's match index, and either no matcher matched (the sentinel remains)
or the selection equals the match of some matcher j while every
earlier-declared matcher's match starts strictly later — so ties on the
start index go to the earlier-declared pattern. -/
theorem c1_inline_earliest_order (remaining : List Char) :
    (∀ j m, (inlineMatchers.map (fun f => f remaining)).get? j = some (some m) →
      (selectEarliest remaining).index ≤ m.index) ∧
    (selectEarliest remaining = sentinel remaining ∨
      ∃ j m, (inlineMatchers.map (fun f => f remaining)).get? j = some (some m) ∧
        selectEarliest remaining = m ∧ m.index < remaining.length ∧
        ∀ i m2, i < j →
          (inlineMatchers.map (fun f => f remaining)).get? i = some (some m2) →
          m.index < m2.index) := by
  constructor
  · intro j m h
    exact selFold_le_match _ (sentinel remaining) j m h
  · rcases selFold_result (inlineMatchers.map (fun f => f remaining))
      (sentinel remaining) with heq | ⟨j, m, hj, heqm, hlt, hmin⟩
    · exact Or.inl heq
    · right
      exact ⟨j, m, hj, heqm, by simpa [sentinel] using hlt, hmin⟩

/-- C1 witness: on triple-star text both the triple-emphasis and the
double-emphasis patterns match at index 0, and the selection is the
earlier-declared triple-emphasis match. -/
theorem c1_inline_earliest_order_witness :
    (selectEarliest (toL ("***x***"))).index ≤ 0 ∧
    selectEarliest (toL ("***x***")) = ⟨0, 7, .txt ['x'] styleBoldItalic⟩ ∧
    matchDelim ['*', '*'] ['*', '*'] styleBold (toL ("***x***")) =
      some ⟨0, 6, .txt ['*', 'x'] styleBold⟩ := by
  refine ⟨?_, by decide, by decide⟩
  exact (c1_inline_earliest_order (toL ("***x***"))).1 2
    ⟨0, 7, .txt ['x'] styleBoldItalic⟩ (by decide)

theorem lookupAssoc_append (m : RenderMap) (k : List Char) (v : Option (List Nat))
    (s : List Char) :
    lookupAssoc (m ++ [(k, v)]) s =
      match lookupAssoc m s with
      | some w => some w
      | none => if k = s then some v else none := by
  induction m with
  | nil => simp [lookupAssoc]
  | cons e rest ih =>
    by_cases he : e.1 = s <;> simp [lookupAssoc, he, ih]

theorem hasKeyA_false_lookup {m : RenderMap} {k : List Char}
    (h : hasKeyA m k = false) : lookupAssoc m k = none := by
  unfold hasKeyA at h
  cases hl : lookupAssoc m k with
  | none => rfl
  | some v => rw [hl] at h; simp at h

theorem prerenderAux_spec (render : List Char → Option (List Nat)) (s : List Char) :
    ∀ (srcs : List (List Char)) (m : RenderMap) (log : List (List Char)),
      ((prerenderAux render srcs m log).2.count s =
        log.count s + (if s ∈ srcs ∧ lookupAssoc m s = none then 1 else 0)) ∧
      (lookupAssoc (prerenderAux render srcs m log).1 s =
        match lookupAssoc m s with
        | some v => some v
        | none => if s ∈ srcs then some (render s) else none) := by
  intro srcs
  induction srcs with
  | nil =>
    intro m log
    refine ⟨by simp [prerenderAux], ?_⟩
    simp only [prerenderAux]
    cases lookupAssoc m s <;> simp
  | cons s0 rest ih =>
    intro m log
    by_cases hk : hasKeyA m s0
    · simp only [prerenderAux, hk, if_true]
      obtain ⟨ihc, ihl⟩ := ih m log
      constructor
      · rw [ihc]
        by_cases hs : s = s0
        · subst hs
          have hlk : lookupAssoc m s ≠ none := by
            unfold hasKeyA at hk
            cases hl : lookupAssoc m s with
            | none => rw [hl] at hk; simp at hk
            | some v => simp
          simp [hlk]
        · simp [List.mem_cons, hs]
      · rw [ihl]
        cases h : lookupAssoc m s with
        | some v => rfl
        | none =>
          by_cases hs : s = s0
          · subst hs
            unfold hasKeyA at hk
            rw [h] at hk
            simp at hk
          · simp [List.mem_cons, hs]
    · simp only [Bool.not_eq_true] at hk
      simp only [prerenderAux, hk, Bool.false_eq_true, if_false]
      have hlk : lookupAssoc m s0 = none := hasKeyA_false_lookup hk
      obtain ⟨ihc, ihl⟩ := ih (m ++ [(s0, render s0)]) (log ++ [s0])
      constructor
      · rw [ihc, List.count_append]
        by_cases hs : s = s0
        · subst hs
          have h1 : lookupAssoc (m ++ [(s, render s)]) s = some (render s) := by
            rw [lookupAssoc_append, hlk]
            simp
          simp [h1, hlk, List.count_cons]
        · have hs2 : ¬s0 = s := fun hc => hs hc.symm
          have h2 : lookupAssoc (m ++ [(s0, render s0)]) s = lookupAssoc m s := by
            rw [lookupAssoc_append]
            cases h : lookupAssoc m s with
            | some v => rfl
            | none => simp [hs2]
          have hcount : List.count s [s0] = 0 := by
            simp [List.count_cons, hs2]
          rw [h2, hcount]
          simp [List.mem_cons, hs]
      · rw [ihl, lookupAssoc_append]
        by_cases hs : s = s0
        · subst hs
          rw [hlk]
          simp
        · have hs2 : ¬s0 = s := fun hc => hs hc.symm
          cases h : lookupAssoc m s with
          | some v => simp
          | none => simp [hs2, List.mem_cons, hs]

/-- C5: the diagram prerender pass issues exactly one rendering request per
distinct diagram source (the request log counts every source of the
document exactly once, duplicates included only once), and the cache maps
each such original, pre-injection source to the single render result. -/
theorem c5_diagram_cache (els : List Elem) (network : List Char → KrokiOutcome)
    (theme s : List Char) :
    ((prerenderMermaidDiagrams network els theme).2.count s =
      if s ∈ mermaidSources els then 1 else 0) ∧
    (lookupAssoc (prerenderMermaidDiagrams network els theme).1 s =
      if s ∈ mermaidSources els then some (renderMermaidToPng network s theme)
      else none) := by
  have h := prerenderAux_spec (fun src => renderMermaidToPng network src theme) s
    (mermaidSources els) [] []
  constructor
  · have hc := h.1
    simpa [prerenderMermaidDiagrams, lookupAssoc] using hc
  · have hl := h.2
    simpa [prerenderMermaidDiagrams, lookupAssoc] using hl

/-- C6: diagram rendering never raises — a non-200 status, a connection
error or a timeout all resolve to the failure marker none; a failed render
is cached under its source exactly like a success; and assembly substitutes
a visible warning block for a failed diagram while continuing with the rest
of the element sequence. -/
theorem c6_render_failure_handling :
    (∀ (network : List Char → KrokiOutcome) (src theme : List Char) (st : Nat)
        (body : List Nat),
      network (krokiPostData src theme) = .success st body → st ≠ 200 →
      renderMermaidToPng network src theme = none) ∧
    (∀ (network : List Char → KrokiOutcome) (src theme : List Char),
      network (krokiPostData src theme) = .connError →
      renderMermaidToPng network src theme = none) ∧
    (∀ (network : List Char → KrokiOutcome) (src theme : List Char),
      network (krokiPostData src theme) = .timeout →
      renderMermaidToPng network src theme = none) ∧
    (∀ (network : List Char → KrokiOutcome) (els : List Elem) (theme s : List Char),
      s ∈ mermaidSources els →
      lookupAssoc (prerenderMermaidDiagrams network els theme).1 s =
        some (renderMermaidToPng network s theme)) ∧
    (∀ (fsread : List Char → Option (List Nat)) (m : RenderMap) (nref ind : Nat)
        (content : List Char) (rest : List Elem),
      (lookupAssoc m content).bind id = none →
      convertAux fsread m nref ind (.code mermaidLang content :: rest) =
        .mermaidWarnP ind :: convertAux fsread m nref ind rest) := by
  refine ⟨?_, ?_, ?_, ?_, ?_⟩
  · intro network src theme st body hn hst
    simp [renderMermaidToPng, hn, hst]
  · intro network src theme hn
    simp [renderMermaidToPng, hn]
  · intro network src theme hn
    simp [renderMermaidToPng, hn]
  · intro network els theme s hmem
    have h := prerenderAux_spec (fun src => renderMermaidToPng network src theme) s
      (mermaidSources els) [] []
    have hl := h.2
    simp only [prerenderMermaidDiagrams]
    rw [hl]
    simp [lookupAssoc, hmem]
  · intro fsread m nref ind content rest h
    have h2 : (lookupAssoc m content).bind (fun a => a) = none := h
    simp [convertAux, h2]

/-- C6 witness: a timeout resolves to none, and assembly over a sequence
whose cache holds a failure marker emits the warning block and continues
with the following paragraph. -/
theorem c6_render_failure_handling_witness :
    renderMermaidToPng (fun _ => KrokiOutcome.timeout) (toL ("graph TD"))
      (toL ("default")) = none ∧
    convertAux (fun _ => none) [(toL ("graph TD"), none)] 0 0
        [Elem.code mermaidLang (toL ("graph TD")), Elem.paragraph (toL ("after"))] =
      [Prim.mermaidWarnP 0, Prim.paraP 0 (parseInlineMarkup (toL ("after")))] := by
  constructor
  · exact c6_render_failure_handling.2.2.1 (fun _ => .timeout) (toL ("graph TD"))
      (toL ("default")) rfl
  · have h := c6_render_failure_handling.2.2.2.2 (fun _ => none)
      [(toL ("graph TD"), none)] 0 0 (toL ("graph TD"))
      [Elem.paragraph (toL ("after"))] (by decide)
    rw [h]
    decide

/-- C7: the diagram scaling rule — when neither dimension exceeds its bound
the dimensions pass through unchanged; when either exceeds, both dimensions
are scaled by min(maxWidth/w, maxHeight/h) and rounded; and in all cases the
emitted dimensions never exceed the originals. -/
theorem c7_diagram_scaling (ind w h : Nat) (hw : 0 < w) (hh : 0 < h)
    (hind : ind ≤ CONTENT_WIDTH) :
    ((w : ℚ) ≤ ((CONTENT_WIDTH : ℚ) - (ind : ℚ)) / 1440 * 96 ∧ (h : ℚ) ≤ 600 →
      scaleMermaid ind w h = (w, h)) ∧
    (((CONTENT_WIDTH : ℚ) - (ind : ℚ)) / 1440 * 96 < (w : ℚ) ∨ (600 : ℚ) < (h : ℚ) →
      scaleMermaid ind w h =
        ((jsRound ((w : ℚ) *
            min ((((CONTENT_WIDTH : ℚ) - (ind : ℚ)) / 1440 * 96) / (w : ℚ))
              (600 / (h : ℚ)))).toNat,
         (jsRound ((h : ℚ) *
            min ((((CONTENT_WIDTH : ℚ) - (ind : ℚ)) / 1440 * 96) / (w : ℚ))
              (600 / (h : ℚ)))).toNat)) ∧
    (scaleMermaid ind w h).1 ≤ w ∧ (scaleMermaid ind w h).2 ≤ h := by
  have hw2 : (0 : ℚ) < (w : ℚ) := by exact_mod_cast hw
  have hh2 : (0 : ℚ) < (h : ℚ) := by exact_mod_cast hh
  have hsub : (0 : ℚ) ≤ (CONTENT_WIDTH : ℚ) - (ind : ℚ) := by
    have hc : (ind : ℚ) ≤ (CONTENT_WIDTH : ℚ) := by exact_mod_cast hind
    linarith
  have hmaxW : (0 : ℚ) ≤ ((CONTENT_WIDTH : ℚ) - (ind : ℚ)) / 1440 * 96 :=
    mul_nonneg (div_nonneg hsub (by norm_num)) (by norm_num)
  refine ⟨?_, ?_, ?_⟩
  · intro hcond
    have hno : ¬((w : ℚ) > ((CONTENT_WIDTH : ℚ) - (ind : ℚ)) / 1440 * 96 ∨
        (h : ℚ) > (600 : ℚ)) := by
      push_neg
      exact hcond
    simp only [scaleMermaid]
    rw [if_neg hno]
  · intro hcond
    simp only [scaleMermaid]
    rw [if_pos hcond]
  · simp only [scaleMermaid]
    split_ifs with hc
    · have hs0 : (0 : ℚ) ≤ min ((((CONTENT_WIDTH : ℚ) - (ind : ℚ)) / 1440 * 96) / (w : ℚ))
          (600 / (h : ℚ)) :=
        le_min (div_nonneg hmaxW hw2.le) (div_nonneg (by norm_num) hh2.le)
      have hs1 : min ((((CONTENT_WIDTH : ℚ) - (ind : ℚ)) / 1440 * 96) / (w : ℚ))
          (600 / (h : ℚ)) ≤ 1 := by
        rcases hc with hcw | hch
        · exact le_trans (min_le_left _ _) (le_of_lt ((div_lt_one hw2).mpr hcw))
        · exact le_trans (min_le_right _ _) (le_of_lt ((div_lt_one hh2).mpr hch))
      constructor
      · show (jsRound ((w : ℚ) * _)).toNat ≤ w
        rw [Int.toNat_le]
        have hmul : (w : ℚ) * min ((((CONTENT_WIDTH : ℚ) - (ind : ℚ)) / 1440 * 96) / (w : ℚ))
            (600 / (h : ℚ)) ≤ (w : ℚ) := by
          calc (w : ℚ) * _ ≤ (w : ℚ) * 1 := mul_le_mul_of_nonneg_left hs1 hw2.le
            _ = (w : ℚ) := mul_one _
        have hfl : jsRound ((w : ℚ) * min ((((CONTENT_WIDTH : ℚ) - (ind : ℚ)) / 1440 * 96) / (w : ℚ))
            (600 / (h : ℚ))) < (w : ℤ) + 1 := by
          apply Int.floor_lt.mpr
          push_cast
          linarith
        omega
      · show (jsRound ((h : ℚ) * _)).toNat ≤ h
        rw [Int.toNat_le]
        have hmul : (h : ℚ) * min ((((CONTENT_WIDTH : ℚ) - (ind : ℚ)) / 1440 * 96) / (w : ℚ))
            (600 / (h : ℚ)) ≤ (h : ℚ) := by
          calc (h : ℚ) * _ ≤ (h : ℚ) * 1 := mul_le_mul_of_nonneg_left hs1 hh2.le
            _ = (h : ℚ) := mul_one _
        have hfl : jsRound ((h : ℚ) * min ((((CONTENT_WIDTH : ℚ) - (ind : ℚ)) / 1440 * 96) / (w : ℚ))
            (600 / (h : ℚ))) < (h : ℤ) + 1 := by
          apply Int.floor_lt.mpr
          push_cast
          linarith
        omega
    · exact ⟨le_refl w, le_refl h⟩

theorem parseParagraphAux_eq (lines : List (List Char)) :
    parseParagraphAux lines =
      (lines.takeWhile (fun l => !stopLine l),
       lines.dropWhile (fun l => !stopLine l)) := by
  induction lines with
  | nil => rfl
  | cons l rest ih =>
    cases hs : stopLine l with
    | true => simp [parseParagraphAux, hs, List.takeWhile_cons, List.dropWhile_cons]
    | false =>
      simp [parseParagraphAux, hs, List.takeWhile_cons, List.dropWhile_cons, ih]

theorem hrChar_cases {c : Char} (h : hrChar c = true) :
    c = '-' ∨ c = '*' ∨ c = '_' := by
  have h2 := h
  simp only [hrChar, Bool.or_eq_true, decide_eq_true_eq] at h2
  tauto

theorem trim_cons_ne_nil {c : Char} (t : List Char) (h : jsWs c = false) :
    trimWs (c :: t) ≠ [] := by
  have hdw : (c :: t).dropWhile jsWs = c :: t := by simp [List.dropWhile_cons, h]
  unfold trimWs
  rw [hdw]
  simp only [ne_eq, List.reverse_eq_nil_iff]
  rw [List.dropWhile_eq_nil_iff]
  push_neg
  exact ⟨c, by simp, by simp [h]⟩

theorem hrChar_not_ws {c : Char} (h : hrChar c = true) : jsWs c = false := by
  rcases hrChar_cases h with rfl | rfl | rfl <;> decide

theorem hr_not_stop (l : List Char) : (hrLine l && stopLine l) = false := by
  cases hhr : hrLine l with
  | false => simp
  | true =>
    simp only [Bool.true_and]
    have hlen : 3 ≤ l.length ∧ l.all hrChar := by simpa [hrLine] using hhr
    rcases l with _ | ⟨a, _ | ⟨b, rest⟩⟩
    · simp at hlen
    · simp at hlen
    · have hall := List.all_eq_true.mp hlen.2
      have ha : hrChar a = true := hall a (by simp)
      have hb : hrChar b = true := hall b (by simp)
      have htrim : trimWs (a :: b :: rest) ≠ [] :=
        trim_cons_ne_nil _ (hrChar_not_ws ha)
      rcases hrChar_cases ha with rfl | rfl | rfl <;>
        rcases hrChar_cases hb with rfl | rfl | rfl <;>
          simp +decide [stopLine, prefixAt, fenceMark, topBulletStart,
            topNumberStart, isListMarker, htrim, List.takeWhile_cons]

theorem mdImage_not_stop (l : List Char) :
    ((mdImageOf l).isSome && stopLine l) = false := by
  cases hm : mdImageOf l with
  | none => simp
  | some p =>
    simp only [Option.isSome_some, Bool.true_and]
    have hshape : ∃ rest, l = '!' :: '[' :: rest := by
      unfold mdImageOf at hm
      split at hm
      · next rest => exact ⟨rest, rfl⟩
      · exact absurd hm (by simp)
    obtain ⟨rest, rfl⟩ := hshape
    have htrim : trimWs ('!' :: '[' :: rest) ≠ [] :=
      trim_cons_ne_nil _ (by decide)
    simp +decide [stopLine, prefixAt, fenceMark, topBulletStart,
      topNumberStart, isListMarker, htrim, List.takeWhile_cons]

/-- C8 (amended): paragraph accumulation takes exactly the lines up to the
first stop line — a blank line, a hash prefix, a fence prefix, an unindented
bullet or numbered marker, or a quote prefix — and joins them with a single
space; horizontal-rule lines and markdown-image lines are never stop lines,
and neither is the pagebreak tag nor a plain table row, so those are
absorbed into the paragraph rather than ending it. -/
theorem c8_paragraph_accumulation_amended :
    (∀ lines, parseParagraph lines =
      (if (lines.takeWhile (fun l => !stopLine l)).isEmpty then []
       else [Elem.paragraph (joinWith ' ' (lines.takeWhile (fun l => !stopLine l)))],
       lines.dropWhile (fun l => !stopLine l))) ∧
    (∀ l, (hrLine l && stopLine l) = false) ∧
    (∀ l, ((mdImageOf l).isSome && stopLine l) = false) ∧
    stopLine (toL ("<pagebreak/>")) = false ∧
    stopLine (toL ("| a | b |")) = false := by
  refine ⟨?_, hr_not_stop, mdImage_not_stop, by decide, by decide⟩
  intro lines
  simp [parseParagraph, parseParagraphAux_eq]

theorem changelogRowsAux_enum (ls : List (List Char)) :
    ∀ i, changelogRowsAux i ls =
      (ls.enumFrom i).filterMap (fun p => rowSpec p.1 p.2) := by
  induction ls with
  | nil => intro i; rfl
  | cons l rest ih =>
    intro i
    simp only [List.enumFrom, List.filterMap_cons]
    by_cases h1 : clSepLine (trimWs l) = true
    · simp [changelogRowsAux, rowSpec, h1, ih]
    · simp only [Bool.not_eq_true] at h1
      by_cases h2 : (decide (i = 0) && hasSub verLabel (trimWs l)) = true
      · simp [changelogRowsAux, rowSpec, h1, h2, ih]
      · simp only [Bool.not_eq_true] at h2
        by_cases h3 : hasChar '|' (trimWs l) = true
        · rcases hr : parseTableRow (trimWs l) with _ | ⟨c0, _ | ⟨c1, _ | ⟨c2, cs⟩⟩⟩ <;>
            simp [changelogRowsAux, rowSpec, h1, h2, h3, hr, ih]
        · simp only [Bool.not_eq_true] at h3
          simp [changelogRowsAux, rowSpec, h1, h2, h3, ih]

set_option maxRecDepth 100000 in
/-- C9: the changelog row loop implements exactly the per-row rule (skip
separator-shaped rows, skip the index-zero row carrying the header label,
parse every other pipe row with at least three cells into a three-field
record, discard the rest); a region with header, separator and two data
rows yields exactly those two records; a region with only header and
separator, or an input with no region, yields no record set; and the
history section falls back to the one synthesized row exactly when the
record set is absent. -/
theorem c9_changelog_extraction :
    (∀ ls, changelogRowsAux 0 ls =
      ls.enum.filterMap (fun p => rowSpec p.1 p.2)) ∧
    extractChangelog clSampleTwo =
      some [⟨toL ("1.0.0"), toL ("2024-01-01"), toL ("first")⟩,
            ⟨toL ("1.1.0"), toL ("2024-02-01"), toL ("second")⟩] ∧
    extractChangelog clSampleHeaderSep = none ∧
    extractChangelog (toL ("no region")) = none ∧
    (∀ ver date, historyData none ver date = [⟨ver, date, initialDesc⟩]) ∧
    (∀ rows ver date, historyData (some rows) ver date = rows) := by
  refine ⟨?_, by decide, by decide, by decide, fun _ _ => rfl, fun _ _ _ => rfl⟩
  intro ls
  have h := changelogRowsAux_enum ls 0
  simpa [List.enum] using h

theorem parseStep_table_iff (l : List Char) (rest : List (List Char)) :
    (parseStep (l :: rest)).1.any isTableE = tableDispatch l rest := by
  cases h1 : (trimWs l).isEmpty with
  | true => simp [parseStep, tableDispatch, h1, isTableE]
  | false =>
    cases h2 : prefixAt fenceMark l with
    | true => simp [parseStep, tableDispatch, h1, h2, isTableE, parseCodeBlock]
    | false =>
      cases h3 : pagebreakLine l with
      | true => simp [parseStep, tableDispatch, h1, h2, h3, isTableE]
      | false =>
        cases h4 : headingOf l with
        | some ht => simp [parseStep, tableDispatch, h1, h2, h3, h4, isTableE]
        | none =>
          cases h5 : mdImageOf l with
          | some p =>
            simp [parseStep, tableDispatch, h1, h2, h3, h4, h5, isTableE]
          | none =>
            cases h6 : imgTagSearch l with
            | some src =>
              simp [parseStep, tableDispatch, h1, h2, h3, h4, h5, h6, isTableE]
            | none =>
              cases h7 : (hasChar '|' l &&
                  (match rest with | nxt :: _ => sepRowLine nxt | [] => false)) with
              | true =>
                simp [parseStep, tableDispatch, h1, h2, h3, h4, h5, h6, h7,
                  isTableE, parseTable]
              | false =>
                cases h8 : bulletDispatch l with
                | true =>
                  simp [parseStep, tableDispatch, h1, h2, h3, h4, h5, h6, h7, h8,
                    isTableE]
                | false =>
                  cases h9 : numberDispatch l with
                  | true =>
                    simp [parseStep, tableDispatch, h1, h2, h3, h4, h5, h6, h7,
                      h8, h9, isTableE]
                  | false =>
                    cases h10 : prefixAt ['>'] l with
                    | true =>
                      simp [parseStep, tableDispatch, h1, h2, h3, h4, h5, h6, h7,
                        h8, h9, h10, isTableE, parseBlockquote]
                    | false =>
                      cases h11 : hrLine l with
                      | true =>
                        simp [parseStep, tableDispatch, h1, h2, h3, h4, h5, h6,
                          h7, h8, h9, h10, h11, isTableE]
                      | false =>
                        simp only [parseStep, tableDispatch, h1, h2, h3, h4, h5,
                          h6, h7, h8, h9, h10, h11, parseParagraph]
                        cases hq : (parseParagraphAux (l :: rest)).1.isEmpty <;>
                          simp only [hq, Bool.false_eq_true, if_false, if_true,
                            List.any_nil, List.any_cons, isTableE,
                            Bool.false_or, Bool.or_false] <;>
                          (rw [eq_comm]; simpa using h7)

theorem parseStep_pipe_fallthrough (l : List Char) (rest : List (List Char))
    (hp : hasChar '|' l = true)
    (hsep : (match rest with | nxt :: _ => sepRowLine nxt | [] => false) = false)
    (hb1 : (trimWs l).isEmpty = false)
    (hb2 : prefixAt fenceMark l = false)
    (hb3 : pagebreakLine l = false)
    (hb4 : headingOf l = none)
    (hb5 : mdImageOf l = none)
    (hb6 : imgTagSearch l = none)
    (hb7 : bulletDispatch l = false)
    (hb8 : numberDispatch l = false)
    (hb9 : prefixAt ['>'] l = false)
    (hb10 : hrLine l = false)
    (hb11 : prefixAt ['#'] l = false)
    (hb12 : topBulletStart l = false)
    (hb13 : topNumberStart l = false) :
    parseStep (l :: rest) =
      ([Elem.paragraph (joinWith ' ' (l :: (parseParagraphAux rest).1))],
        (parseParagraphAux rest).2) := by
  have hstop : stopLine l = false := by
    simp [stopLine, hb1, hb2, hb9, hb11, hb12, hb13]
  cases rest with
  | nil =>
    simp [parseStep, hb1, hb2, hb3, hb4, hb5, hb6, hb7, hb8, hb9, hb10, hp,
      parseParagraph, parseParagraphAux, hstop]
  | cons nxt rrest =>
    have hsep2 : sepRowLine nxt = false := by simpa using hsep
    simp [parseStep, hb1, hb2, hb3, hb4, hb5, hb6, hb7, hb8, hb9, hb10, hp,
      hsep2, parseParagraph, parseParagraphAux, hstop]

/-- C3 (amended): the dispatch emits a table element exactly when the line
contains a pipe, the next line matches the separator-row shape, and no
earlier-precedence branch (blank, fence, pagebreak, heading, markdown image,
img tag) claims the line; and a pipe-containing line with no following
separator that matches none of the other block patterns is parsed as (the
start of) a paragraph. -/
theorem c3_table_detection_amended :
    (∀ (l : List Char) (rest : List (List Char)),
      (parseStep (l :: rest)).1.any isTableE = tableDispatch l rest) ∧
    (∀ (l : List Char) (rest : List (List Char)),
      hasChar '|' l = true →
      (match rest with | nxt :: _ => sepRowLine nxt | [] => false) = false →
      (trimWs l).isEmpty = false →
      prefixAt fenceMark l = false →
      pagebreakLine l = false →
      headingOf l = none →
      mdImageOf l = none →
      imgTagSearch l = none →
      bulletDispatch l = false →
      numberDispatch l = false →
      prefixAt ['>'] l = false →
      hrLine l = false →
      prefixAt ['#'] l = false →
      topBulletStart l = false →
      topNumberStart l = false →
      parseStep (l :: rest) =
        ([Elem.paragraph (joinWith ' ' (l :: (parseParagraphAux rest).1))],
          (parseParagraphAux rest).2)) :=
  ⟨parseStep_table_iff, parseStep_pipe_fallthrough⟩

/-- C3 amended witness: a lone pipe-containing line that matches no other
block pattern parses as a one-line paragraph. -/
theorem c3_table_detection_amended_witness :
    parseStep [toL ("a|b")] = ([Elem.paragraph (toL ("a|b"))], []) := by
  have h := c3_table_detection_amended.2 (toL ("a|b")) [] (by decide) (by decide)
    (by decide) (by decide) (by decide) (by decide) (by decide) (by decide)
    (by decide) (by decide) (by decide) (by decide) (by decide) (by decide)
    (by decide)
  rw [h]
  decide

/-- C7 witness: a 1200 by 300 raster at indent 0 exceeds the usable width
and is scaled to 602 by 150, never exceeding the original dimensions. -/
theorem c7_diagram_scaling_witness :
    (scaleMermaid 0 1200 300).1 ≤ 1200 ∧ (scaleMermaid 0 1200 300).2 ≤ 300 ∧
    scaleMermaid 0 1200 300 = (602, 150) :=
  ⟨(c7_diagram_scaling 0 1200 300 (by decide) (by decide) (by decide)).2.2.1,
   (c7_diagram_scaling 0 1200 300 (by decide) (by decide) (by decide)).2.2.2,
   by
     norm_num [scaleMermaid, CONTENT_WIDTH, jsRound, min_def, Prod.ext_iff]
     decide⟩

end Md2mdocx
